import Mathlib

/-!
Verification of the single-header dynamic list library `dynamic_list.h`
(growable contiguous array with a header stored before the element buffer).

Modelling conventions
=====================
* A live list (the header `ListPrelude` together with the element buffer it
  precedes) is modelled by `DynList`: `capacity` and `length` are the two
  `size_t` header fields, `allocatorRef` stands for the stored
  `Allocator*` pointer value, and `data` is the contents of the element
  buffer, one abstract slot per element index (slots beyond `capacity`
  and between `length` and `capacity` hold arbitrary "uninitialized"
  values, which the model simply carries along).
* `size_t` values are modelled as `Nat` for the element-level operations
  (append, remove, clear, the frame properties), whose claims are either
  self-bounded to small counts or speak about completing executions, so
  unbounded naturals and `size_t` agree there; byte-level size arithmetic
  (`sizeof(ListPrelude) + stride * capacity`) stays abstract.  The
  capacity-growth claims, however, quantify over *every* demand, and there
  `size_t` wrap-around is observable: the demand sum `length + item_count`
  can wrap to a small value, and the doubling `new_capacity *= 2` can wrap
  to 0 and loop forever.  Those behaviors are modelled faithfully by the
  wrapped variants over `size_w = 2 ^ 64` (`grow_loop_wrap`,
  `list_ensure_capacity_wrap`), which are used to refute the unbounded
  growth claims and to prove their bounded amendments.  (`list_remove_at`
  on an empty list, where `h->length - 1` underflows, is outside every
  claim's precondition and is noted at the definition.)
* `realloc` with a sufficient new size preserves the block's contents
  (C semantics: the contents up to the old size are copied), so the
  `data` field survives a grow unchanged; pointer identity of the block is
  not part of the state, but whether the `realloc` call at line 236 of the
  source executes is returned as an explicit `Bool` so that
  "no reallocation occurs" is observable.
* Allocation failure is modelled where a claim needs it:
  `create_list` takes the allocator's result as an `Option` block, and
  `list_ensure_capacity_fallible` takes a flag telling whether
  `allocator->realloc` succeeds; the source code dereferences the realloc
  result without checking it, which on failure is a write through a null
  pointer, modelled by the distinguished outcome
  `GrowAttempt.undefinedBehavior`.
-/

namespace DynamicList

/-- The header fields of `ListPrelude` (capacity, length, the stored
allocator pointer) together with the element buffer contents. -/
structure DynList (α : Type) where
  capacity : Nat
  length : Nat
  allocatorRef : Nat
  data : Nat → α

/-- Writing one element slot of the buffer (`list[i] = v`). -/
def writeSlot {α : Type} (d : Nat → α) (i : Nat) (v : α) : Nat → α :=
  fun j => if j = i then v else d j

/-- The doubling loop of `list_ensure_capacity` (source lines 230-233):
`new_capacity` starts at `capacity * 2` and doubles while it is below
`desired`; `grow_loop desired nc` is the loop run from entry value `nc`.
The C loop does not terminate when `nc = 0` (doubling 0 stays 0); the
`nc = 0` branch returning 0 is only a totalization escape outside the
modelled domain — `grow_loop_fuel` below is the step-faithful loop used
to reason about termination itself. -/
def grow_loop (desired nc : Nat) : Nat :=
  if h0 : nc = 0 then 0
  else if h1 : nc < desired then grow_loop desired (nc * 2)
  else nc
termination_by desired - nc
decreasing_by omega

/-- The same doubling loop, transcribed step by step with explicit fuel:
`none` means the loop has not exited within `fuel` iterations.  Like
`grow_loop` this version computes over unbounded `Nat`; the `size_t`
version is `grow_loop_wrap` below. -/
def grow_loop_fuel (fuel desired nc : Nat) : Option Nat :=
  if nc < desired then
    match fuel with
    | 0 => none
    | fuel' + 1 => grow_loop_fuel fuel' desired (nc * 2)
  else some nc

/-- The modulus of `size_t` arithmetic (LP64 platforms: 64 bits). -/
def size_w : Nat := 2 ^ 64

/-- The doubling loop with faithful `size_t` arithmetic: `new_capacity *= 2`
wraps modulo `2 ^ 64`, so once the running capacity wraps to 0 the loop
can never exit (`0 * 2` stays 0 below any positive `desired`).  `none`
means the loop has not exited within `fuel` iterations. -/
def grow_loop_wrap (fuel desired nc : Nat) : Option Nat :=
  if nc < desired then
    match fuel with
    | 0 => none
    | fuel' + 1 => grow_loop_wrap fuel' desired (nc * 2 % size_w)
  else some nc

/-- Model of `create_list(stride, capacity, allocator)` (source lines 206-223):
allocates one block; on success the header is initialized with the given
capacity, zero length and the allocator, and the handle (start of the
element buffer) is returned; a failed allocation yields NULL.  `block` is
the allocator's answer: the fresh (uninitialized) buffer contents, or
`none` for an allocation failure.  `stride` only enters the byte count of
the allocation request, which the model abstracts. -/
def create_list {α : Type} (_stride capacity allocatorRef : Nat)
    (block : Option (Nat → α)) : Option (DynList α) :=
  match block with
  | none => none
  | some mem =>
      some { capacity := capacity, length := 0,
             allocatorRef := allocatorRef, data := mem }

/-- Model of `list_ensure_capacity(list, item_count, item_size)` (source lines
225-241), success path: if `capacity < length + item_count` the block is
reallocated to the doubled capacity `grow_loop` computes and the header's
capacity field is updated; otherwise nothing happens.  The `Bool` records
whether the `realloc` call on line 236 executed. -/
def list_ensure_capacity {α : Type} (itemCount : Nat) (l : DynList α) :
    DynList α × Bool :=
  if l.capacity < l.length + itemCount then
    ({ l with capacity := grow_loop (l.length + itemCount) (l.capacity * 2) },
     true)
  else
    (l, false)

/-- Outcome of a growth operation under a fallible allocator. -/
inductive GrowAttempt (α : Type) where
  | ok (l : DynList α)
  | undefinedBehavior

/-- Model of `list_ensure_capacity` with the allocator's `realloc` result made
explicit.  The source assigns the `realloc` result to `prelude` and then
unconditionally executes `prelude->capacity = new_capacity` (line 237)
without any check, so when `realloc` returns NULL the function writes
through a null pointer: that outcome is `GrowAttempt.undefinedBehavior`.
There is no error return in the code. -/
def list_ensure_capacity_fallible {α : Type} (reallocSucceeds : Bool)
    (itemCount : Nat) (l : DynList α) : GrowAttempt α :=
  if l.capacity < l.length + itemCount then
    if reallocSucceeds then
      .ok { l with
            capacity := grow_loop (l.length + itemCount) (l.capacity * 2) }
    else
      .undefinedBehavior
  else
    .ok l

/-- Model of `list_ensure_capacity` with faithful `size_t` arithmetic on
the sizes (success path of the allocator): `desired = length + item_count`
wraps modulo `2 ^ 64` (line 227), and the doubling loop is the wrapping
`grow_loop_wrap`, run with `fuel` iterations — `none` means the C call has
not returned within `fuel` loop iterations (and never will, since the
running capacity only revisits values).  Header fields of a live list are
`size_t` values, i.e. below `size_w`. -/
def list_ensure_capacity_wrap {α : Type} (fuel itemCount : Nat)
    (l : DynList α) : Option (DynList α × Bool) :=
  let desired := (l.length + itemCount) % size_w
  if l.capacity < desired then
    match grow_loop_wrap fuel desired (l.capacity * 2 % size_w) with
    | none => none
    | some nc => some ({ l with capacity := nc }, true)
  else
    some (l, false)

/-- Result of `list_append`: the updated list (reassigned handle), the
index the returned element pointer refers to, and whether the append
reallocated. -/
structure AppendOut (α : Type) where
  list : DynList α
  slot : Nat
  reallocated : Bool

/-- Model of `list_append(list, item)` (source lines 141-144): ensure capacity for
one more element, write `item` into slot `length`, then
`&(list)[list_prelude(list)->length++]` — the post-increment yields the
old length, so the returned pointer is the slot just written. -/
def list_append {α : Type} (v : α) (l : DynList α) : AppendOut α :=
  let e := list_ensure_capacity 1 l
  let l1 := e.1
  let l2 := { l1 with data := writeSlot l1.data l1.length v,
                      length := l1.length + 1 }
  { list := l2, slot := l1.length, reallocated := e.2 }

/-- Model of `list_resize(list, desired)` (source lines 138-140): ensure capacity
for `desired` more elements, then `&(list)[list_prelude(list)->length +=
(desired)]` — the compound assignment evaluates to the *updated* length,
so the returned pointer is the slot at index `old length + desired`
(one past the newly reserved region), and the length grows by `desired`. -/
def list_resize {α : Type} (desired : Nat) (l : DynList α) :
    DynList α × Nat :=
  let e := list_ensure_capacity desired l
  let l1 := e.1
  ({ l1 with length := l1.length + desired }, l1.length + desired)

/-- Model of `list_remove_at(list, index)` (source lines 145-155): if `index` is
the last live index, only decrement the length; otherwise, if more than
one element is live, decrement the length and `memcpy` the former last
element over slot `index`.  (`h->length - 1` is `size_t` arithmetic; on
an empty list it wraps around to `SIZE_MAX` in C while `Nat` truncates to
0, a difference only visible outside the `length >= 1` preconditions of
every claim about this operation.) -/
def list_remove_at {α : Type} (index : Nat) (l : DynList α) : DynList α :=
  if index = l.length - 1 then
    { l with length := l.length - 1 }
  else if l.length > 1 then
    { l with length := l.length - 1,
             data := writeSlot l.data index (l.data (l.length - 1)) }
  else
    l

/-- Model of `list_clear(list)` (source line 137): `list_prelude(list)->length = 0`. -/
def list_clear {α : Type} (l : DynList α) : DynList α :=
  { l with length := 0 }

/-- Model of `list_pop_back(a)`: the macro (source line 157) expands to
`array_header(a)->length -= 1`, but no `array_header` is defined anywhere
in the repository — every other operation reads the header through
`list_prelude` — so the macro does not compile as written.  This models
the evident intent of the macro body: decrement the header's length
field through the list's header. -/
def list_pop_back {α : Type} (l : DynList α) : DynList α :=
  { l with length := l.length - 1 }

/-- Folding `list_append` over a list of values, keeping the final state
(the handle is reassigned at every step, as the macro does). -/
def appendAll {α : Type} (l : DynList α) : List α → DynList α
  | [] => l
  | v :: vs => appendAll (list_append v l).list vs

/-- Number of `realloc` calls performed by a sequence of appends. -/
def appendReallocCount {α : Type} (l : DynList α) : List α → Nat
  | [] => 0
  | v :: vs =>
      let r := list_append v l
      (if r.reallocated then 1 else 0) + appendReallocCount r.list vs

/-- Concrete buffer contents used by the witnesses: all slots hold 0. -/
def demoData : Nat → Nat := fun _ => 0

/-- A concrete list with capacity 4 and length 2 (slots 0,1 live). -/
def demoList4 : DynList Nat :=
  { capacity := 4, length := 2, allocatorRef := 0,
    data := writeSlot (writeSlot demoData 0 10) 1 20 }

/-- A concrete empty list with capacity 2. -/
def demoEmpty : DynList Nat :=
  { capacity := 2, length := 0, allocatorRef := 0, data := demoData }

/-- A concrete full list: capacity 1, length 1. -/
def demoFull : DynList Nat :=
  { capacity := 1, length := 1, allocatorRef := 7,
    data := writeSlot demoData 0 42 }

/-- A concrete list with capacity 16 and length 2 (for the wrapped-demand
counterexample). -/
def demoList16 : DynList Nat :=
  { capacity := 16, length := 2, allocatorRef := 0, data := demoData }

/-- A concrete fresh list with capacity 16 and length 0 (for the
wrapped-doubling divergence counterexample). -/
def demoFresh16 : DynList Nat :=
  { capacity := 16, length := 0, allocatorRef := 0, data := demoData }

/-- The header invariant: the live count never exceeds the slot count. -/
def Inv {α : Type} (l : DynList α) : Prop := l.length ≤ l.capacity

/-! Lemmas about the doubling loop -/

lemma grow_loop_step (d nc : Nat) (h0 : nc ≠ 0) (h1 : nc < d) :
    grow_loop d nc = grow_loop d (nc * 2) := by
  rw [grow_loop]
  simp [h0, h1]

lemma grow_loop_stop (d nc : Nat) (h0 : nc ≠ 0) (h1 : ¬ nc < d) :
    grow_loop d nc = nc := by
  rw [grow_loop]
  simp [h0, h1]

lemma le_mul_two_pow (nc j : Nat) : nc ≤ nc * 2 ^ j := by
  have h2 : 1 ≤ 2 ^ j := Nat.one_le_two_pow
  calc nc = nc * 1 := (Nat.mul_one nc).symm
    _ ≤ nc * 2 ^ j := Nat.mul_le_mul (Nat.le_refl nc) h2

/-- Full characterization of the doubling loop on its terminating domain
(`1 ≤ nc`): the result is at least `desired`, has the form `nc * 2 ^ j`,
and is the least such multiple that reaches `desired`.  The bound `m` is
an induction handle: any `m` with `d ≤ nc + m` works. -/
lemma grow_loop_spec : ∀ (m d nc : Nat), d ≤ nc + m → 1 ≤ nc →
    d ≤ grow_loop d nc ∧ (∃ j, grow_loop d nc = nc * 2 ^ j) ∧
    ∀ j, d ≤ nc * 2 ^ j → grow_loop d nc ≤ nc * 2 ^ j := by
  intro m
  induction m with
  | zero =>
    intro d nc hd h1
    rw [grow_loop_stop d nc (by omega) (by omega)]
    exact ⟨by omega, ⟨0, by simp⟩, fun j _ => le_mul_two_pow nc j⟩
  | succ m ih =>
    intro d nc hd h1
    by_cases hlt : nc < d
    · rw [grow_loop_step d nc (by omega) hlt]
      have h2 : 1 ≤ nc * 2 := by omega
      have hd2 : d ≤ nc * 2 + m := by omega
      obtain ⟨hge, ⟨j, hj⟩, hmin⟩ := ih d (nc * 2) hd2 h2
      refine ⟨hge, ⟨j + 1, by rw [hj]; ring⟩, ?_⟩
      intro j2 hdj
      cases j2 with
      | zero => simp at hdj; omega
      | succ j3 =>
        have he : nc * 2 ^ (j3 + 1) = nc * 2 * 2 ^ j3 := by ring
        rw [he]
        exact hmin j3 (by rw [he] at hdj; exact hdj)
    · rw [grow_loop_stop d nc (by omega) hlt]
      exact ⟨by omega, ⟨0, by simp⟩, fun j _ => le_mul_two_pow nc j⟩

/-- The fueled loop terminates within `m` steps whenever `d ≤ nc + m` and
`1 ≤ nc` (each iteration at least doubles, hence strictly increases, the
running capacity). -/
lemma grow_loop_fuel_terminates : ∀ (m d nc : Nat), d ≤ nc + m → 1 ≤ nc →
    ∃ r, grow_loop_fuel m d nc = some r := by
  intro m
  induction m with
  | zero =>
    intro d nc hd h1
    have hno : ¬ nc < d := by omega
    exact ⟨nc, by simp [grow_loop_fuel, hno]⟩
  | succ m ih =>
    intro d nc hd h1
    by_cases hlt : nc < d
    · have hstep : grow_loop_fuel (m + 1) d nc = grow_loop_fuel m d (nc * 2) := by
        simp [grow_loop_fuel, hlt]
      rw [hstep]
      exact ih d (nc * 2) (by omega) (by omega)
    · exact ⟨nc, by simp [grow_loop_fuel, hlt]⟩

/-- With enough fuel the fueled loop returns exactly the value of the
total loop `grow_loop`. -/
lemma grow_loop_fuel_eq_grow_loop : ∀ (m d nc : Nat), d ≤ nc + m →
    1 ≤ nc → grow_loop_fuel m d nc = some (grow_loop d nc) := by
  intro m
  induction m with
  | zero =>
    intro d nc hd h1
    have hno : ¬ nc < d := by omega
    rw [grow_loop_stop d nc (by omega) hno]
    simp [grow_loop_fuel, hno]
  | succ m ih =>
    intro d nc hd h1
    by_cases hlt : nc < d
    · rw [grow_loop_step d nc (by omega) hlt]
      have hstep : grow_loop_fuel (m + 1) d nc = grow_loop_fuel m d (nc * 2) := by
        simp [grow_loop_fuel, hlt]
      rw [hstep]
      exact ih d (nc * 2) (by omega) (by omega)
    · rw [grow_loop_stop d nc (by omega) hlt]
      simp [grow_loop_fuel, hlt]

/-- As long as `desired` stays at or below `2 ^ 63`, the running capacity
never wraps (each doubled value stays below `2 ^ 64`), so the wrapping
`size_t` loop agrees step by step with the unbounded one. -/
lemma grow_loop_wrap_eq_fuel : ∀ (fuel d nc : Nat), d ≤ 2 ^ 63 →
    grow_loop_wrap fuel d nc = grow_loop_fuel fuel d nc := by
  intro fuel
  induction fuel with
  | zero =>
    intro d nc _
    by_cases hlt : nc < d
    · simp [grow_loop_wrap, grow_loop_fuel, hlt]
    · simp [grow_loop_wrap, grow_loop_fuel, hlt]
  | succ fuel ih =>
    intro d nc hd
    by_cases hlt : nc < d
    · have hnc63 : nc < 2 ^ 63 := lt_of_lt_of_le hlt hd
      have hlt2 : nc * 2 < size_w := by
        have h2 : nc * 2 < 2 ^ 63 * 2 :=
          mul_lt_mul_of_pos_right hnc63 (by norm_num)
        have he : (2 : Nat) ^ 63 * 2 = size_w := by norm_num [size_w]
        rw [he] at h2
        exact h2
      have hmod : nc * 2 % size_w = nc * 2 := Nat.mod_eq_of_lt hlt2
      have h1 : grow_loop_wrap (fuel + 1) d nc =
          grow_loop_wrap fuel d (nc * 2) := by
        simp [grow_loop_wrap, hlt, hmod]
      have h2 : grow_loop_fuel (fuel + 1) d nc =
          grow_loop_fuel fuel d (nc * 2) := by
        simp [grow_loop_fuel, hlt]
      rw [h1, h2]
      exact ih d (nc * 2) hd
    · simp [grow_loop_wrap, grow_loop_fuel, hlt]

/-- With a zero entry capacity the wrapping loop never exits, no matter
the fuel: this is the non-termination of the C loop at capacity 0. -/
lemma grow_loop_wrap_zero_none : ∀ (fuel d : Nat), 1 ≤ d →
    grow_loop_wrap fuel d 0 = none := by
  intro fuel
  induction fuel with
  | zero =>
    intro d hd
    have h : (0 : Nat) < d := hd
    simp [grow_loop_wrap, h]
  | succ fuel ih =>
    intro d hd
    have h : (0 : Nat) < d := hd
    have hstep : grow_loop_wrap (fuel + 1) d 0 =
        grow_loop_wrap fuel d (0 * 2 % size_w) := by
      simp [grow_loop_wrap, h]
    rw [hstep]
    simpa using ih d hd

/-- Values of the form `0` or `2 ^ j` with `j ≤ 63` sit strictly below
the demand `2 ^ 63 + 1`. -/
lemma pow_le_63_lt (nc : Nat)
    (h : nc = 0 ∨ ∃ j, j ≤ 63 ∧ nc = 2 ^ j) : nc < 2 ^ 63 + 1 := by
  rcases h with h0 | ⟨j, hj, hnc⟩
  · omega
  · have hle : (2 : Nat) ^ j ≤ 2 ^ 63 :=
      Nat.pow_le_pow_right (by norm_num) hj
    omega

/-- Against the demand `2 ^ 63 + 1`, the wrapping loop started at any
power of two up to `2 ^ 63` (or at 0) never exits: the running capacity
doubles through powers of two until `2 ^ 63 * 2` wraps to 0, and 0 then
repeats forever.  This is the overflow divergence of the C loop. -/
lemma grow_loop_wrap_pow_stuck : ∀ (fuel nc : Nat),
    (nc = 0 ∨ ∃ j, j ≤ 63 ∧ nc = 2 ^ j) →
    grow_loop_wrap fuel (2 ^ 63 + 1) nc = none := by
  intro fuel
  induction fuel with
  | zero =>
    intro nc hP
    have hlt := pow_le_63_lt nc hP
    unfold grow_loop_wrap
    rw [if_pos hlt]
  | succ fuel ih =>
    intro nc hP
    have hlt := pow_le_63_lt nc hP
    have hstep : grow_loop_wrap (fuel + 1) (2 ^ 63 + 1) nc =
        grow_loop_wrap fuel (2 ^ 63 + 1) (nc * 2 % size_w) := by
      conv_lhs => rw [grow_loop_wrap]
      rw [if_pos hlt]
    rw [hstep]
    apply ih
    rcases hP with h0 | ⟨j, hj, hnc⟩
    · left
      simp [h0]
    · subst hnc
      by_cases hj63 : j = 63
      · left
        subst hj63
        have he : (2 : Nat) ^ 63 * 2 = size_w := by norm_num [size_w]
        rw [he]
        exact Nat.mod_self size_w
      · right
        refine ⟨j + 1, by omega, ?_⟩
        have hpow : (2 : Nat) ^ j * 2 = 2 ^ (j + 1) := by ring
        have hle : (2 : Nat) ^ (j + 1) ≤ 2 ^ 63 :=
          Nat.pow_le_pow_right (by norm_num) (by omega)
        have hlt2 : (2 : Nat) ^ (j + 1) < size_w := by
          have hw : (2 : Nat) ^ 63 < size_w := by norm_num [size_w]
          omega
        rw [hpow, Nat.mod_eq_of_lt hlt2]

/-! Lemmas about `list_ensure_capacity` -/

/-- On a list with positive capacity, `list_ensure_capacity` keeps length,
buffer contents and allocator, and ends with capacity at least
`length + itemCount` and at least the old capacity. -/
lemma list_ensure_capacity_spec {α : Type} (k : Nat) (l : DynList α)
    (hc : 1 ≤ l.capacity) :
    (list_ensure_capacity k l).1.length = l.length ∧
    (list_ensure_capacity k l).1.data = l.data ∧
    (list_ensure_capacity k l).1.allocatorRef = l.allocatorRef ∧
    l.length + k ≤ (list_ensure_capacity k l).1.capacity ∧
    l.capacity ≤ (list_ensure_capacity k l).1.capacity := by
  unfold list_ensure_capacity
  by_cases h : l.capacity < l.length + k
  · obtain ⟨hge, _, _⟩ :=
      grow_loop_spec (l.length + k) (l.length + k) (l.capacity * 2)
        (by omega) (by omega)
    simp only [h, if_pos]
    exact ⟨by trivial, by trivial, by trivial, hge, by omega⟩
  · simp only [h, if_neg, not_false_iff]
    exact ⟨by trivial, by trivial, by trivial, by omega, by omega⟩

/-- Frame property: `list_ensure_capacity` never touches length or buffer contents, in
either branch (on a grow, `realloc` copies the block). -/
lemma list_ensure_capacity_frame {α : Type} (k : Nat) (l : DynList α) :
    (list_ensure_capacity k l).1.length = l.length ∧
    (list_ensure_capacity k l).1.data = l.data ∧
    (list_ensure_capacity k l).1.allocatorRef = l.allocatorRef := by
  unfold list_ensure_capacity
  by_cases h : l.capacity < l.length + k
  · simp only [h, if_pos]
    exact ⟨by trivial, by trivial, by trivial⟩
  · simp only [h, if_neg, not_false_iff]
    exact ⟨by trivial, by trivial, by trivial⟩

/-! Lemmas about `list_append` -/

/-- One append on a list with positive capacity: length grows by one, the
new value sits in slot `old length` (which is also the returned slot),
all other slots are untouched, and the capacity accommodates the new
length and stays positive. -/
lemma list_append_spec {α : Type} (v : α) (l : DynList α)
    (hc : 1 ≤ l.capacity) :
    (list_append v l).list.length = l.length + 1 ∧
    (list_append v l).list.data l.length = v ∧
    (∀ i, i ≠ l.length → (list_append v l).list.data i = l.data i) ∧
    (list_append v l).slot = l.length ∧
    l.length + 1 ≤ (list_append v l).list.capacity ∧
    1 ≤ (list_append v l).list.capacity ∧
    (list_append v l).list.allocatorRef = l.allocatorRef := by
  obtain ⟨h1, h2, h3, h4, h5⟩ := list_ensure_capacity_spec 1 l hc
  unfold list_append
  simp only [h1, h2, h3]
  refine ⟨by trivial, by simp [writeSlot], ?_, by trivial, h4, by omega,
    by trivial⟩
  intro i hi
  simp [writeSlot, h1, hi]

/-- Appending a whole value sequence: lengths add up, capacity stays
positive and sufficient, the previously live slots keep their values, and
slot `old length + i` ends up holding the i-th appended value. -/
lemma appendAll_spec {α : Type} (vs : List α) :
    ∀ l : DynList α, 1 ≤ l.capacity → l.length ≤ l.capacity →
    (appendAll l vs).length = l.length + vs.length ∧
    1 ≤ (appendAll l vs).capacity ∧
    (appendAll l vs).length ≤ (appendAll l vs).capacity ∧
    (∀ i, i < l.length → (appendAll l vs).data i = l.data i) ∧
    ∀ i (h : i < vs.length),
      (appendAll l vs).data (l.length + i) = vs.get ⟨i, h⟩ := by
  induction vs with
  | nil =>
    intro l hc hlc
    simp only [appendAll, List.length_nil]
    exact ⟨by omega, hc, hlc, fun i _ => by trivial, fun i h => by simp at h⟩
  | cons v vs ih =>
    intro l hc hlc
    obtain ⟨a1, a2, a3, _, a5, a6, _⟩ := list_append_spec v l hc
    obtain ⟨b1, b2, b3, b4, b5⟩ :=
      ih (list_append v l).list a6 (by rw [a1]; exact a5)
    simp only [appendAll, List.length_cons]
    refine ⟨?_, b2, b3, ?_, ?_⟩
    · rw [b1, a1]
      omega
    · intro i hi
      rw [b4 i (by rw [a1]; omega)]
      exact a3 i (by omega)
    · intro i h
      cases i with
      | zero =>
        have hb := b4 l.length (by rw [a1]; omega)
        simpa using hb.trans a2
      | succ i =>
        have h2 : i < vs.length := by
          simpa [List.length_cons] using h
        have hb := b5 i h2
        rw [a1] at hb
        have harith : l.length + 1 + i = l.length + (i + 1) := by omega
        rw [harith] at hb
        rw [hb]
        simp

/-- A run of appends that fits inside the current capacity never calls
`realloc`. -/
lemma appendReallocCount_eq_zero {α : Type} (vs : List α) :
    ∀ l : DynList α, l.length + vs.length ≤ l.capacity →
    appendReallocCount l vs = 0 := by
  induction vs with
  | nil => intro l _; rfl
  | cons v vs ih =>
    intro l h
    have hlen : l.length + (vs.length + 1) ≤ l.capacity := by
      simpa [List.length_cons] using h
    have hno : ¬ l.capacity < l.length + 1 := by omega
    have hens : list_ensure_capacity 1 l = (l, false) := by
      unfold list_ensure_capacity
      simp [hno]
    have key : (list_append v l).reallocated = false ∧
        (list_append v l).list.length = l.length + 1 ∧
        (list_append v l).list.capacity = l.capacity := by
      simp only [list_append, hens]
      exact ⟨by trivial, by trivial, by trivial⟩
    have hrest : appendReallocCount (list_append v l).list vs = 0 := by
      refine ih (list_append v l).list ?_
      rw [key.2.1, key.2.2]
      omega
    simp [appendReallocCount, key.1, hrest]

/-! Claim theorems -/

/-- Claim C1: the spec requires growth to propagate a reallocation
failure explicitly instead of continuing with a corrupted handle.  The
code does the opposite: with an allocator whose `realloc` fails on a full
list, `list_ensure_capacity` writes the capacity update through the
unchecked NULL result — the outcome is undefined behavior, not an
explicit failure signal and not a preserved original block. -/
theorem ensure_capacity_realloc_failure_ub :
    list_ensure_capacity_fallible false 1 demoFull =
      GrowAttempt.undefinedBehavior := rfl

/-- Claim C2: `list_resize` is claimed to return a reference to the first
of the newly available slots (index `old length`).  On a concrete list of
length 2 resized by 2, the macro instead yields index 4 — the compound
assignment `length += desired` evaluates to the updated length — which is
one past the new region, and the true first new slot (index 2) is not
what the returned reference designates. -/
theorem resize_returns_slot_past_new_region :
    demoList4.length = 2 ∧
    (list_resize 2 demoList4).1.length = 4 ∧
    (list_resize 2 demoList4).2 = 4 ∧
    (list_resize 2 demoList4).2 ≠ demoList4.length ∧
    (list_resize 2 demoList4).1.data demoList4.length = 0 :=
  ⟨rfl, rfl, rfl, by decide, rfl⟩

/-- Claim C3, counterexample: the claim quantifies over every additional
count, but the C demand sum is `size_t` arithmetic.  With length 2,
capacity 16 and count `SIZE_MAX - 1`, `desired = length + item_count`
wraps to 0, so the code takes the no-growth branch and returns the same
handle with capacity 16 — although the claim's `length + d` exceeds the
capacity and demands growth to the smallest doubled multiple. -/
theorem ensure_capacity_wrap_demand_overflow :
    demoList16.capacity = 16 ∧ demoList16.length = 2 ∧
    demoList16.capacity < demoList16.length + (size_w - 2) ∧
    (demoList16.length + (size_w - 2)) % size_w = 0 ∧
    ∀ fuel, list_ensure_capacity_wrap fuel (size_w - 2) demoList16 =
      some (demoList16, false) :=
  ⟨rfl, rfl, by decide, by decide, fun _ => rfl⟩

/-- Claim C3 (amended): for a list with positive capacity and a demand
small enough that `size_t` cannot wrap (`length + d ≤ 2 ^ 63`): if
`length + d` fits the current capacity, nothing happens, no reallocation,
same handle; otherwise the operation completes (for sufficient loop
fuel) with a reallocation, and the resulting capacity is the smallest
`capacity * 2 ^ k` that reaches `length + d`. -/
theorem ensure_capacity_doubling_wrap {α : Type} (k : Nat) (l : DynList α)
    (hc : 1 ≤ l.capacity) (hd : l.length + k ≤ 2 ^ 63) :
    (l.length + k ≤ l.capacity →
      ∀ fuel, list_ensure_capacity_wrap fuel k l = some (l, false)) ∧
    (l.capacity < l.length + k →
      ∃ fuel out, list_ensure_capacity_wrap fuel k l = some out ∧
        out.2 = true ∧
        ∃ j, out.1.capacity = l.capacity * 2 ^ j ∧
          l.length + k ≤ l.capacity * 2 ^ j ∧
          ∀ m, l.length + k ≤ l.capacity * 2 ^ m →
            l.capacity * 2 ^ j ≤ l.capacity * 2 ^ m) := by
  have hw : l.length + k < size_w := by
    have hx : (2 : Nat) ^ 63 < size_w := by norm_num [size_w]
    omega
  have hdr : (l.length + k) % size_w = l.length + k := Nat.mod_eq_of_lt hw
  constructor
  · intro h fuel
    have hno : ¬ l.capacity < (l.length + k) % size_w := by
      rw [hdr]
      omega
    simp [list_ensure_capacity_wrap, hno]
  · intro h
    have hc63 : l.capacity < 2 ^ 63 := lt_of_lt_of_le h hd
    have hc2w : l.capacity * 2 < size_w := by
      have h2 : l.capacity * 2 < 2 ^ 63 * 2 :=
        mul_lt_mul_of_pos_right hc63 (by norm_num)
      have he : (2 : Nat) ^ 63 * 2 = size_w := by norm_num [size_w]
      rw [he] at h2
      exact h2
    have hmod : l.capacity * 2 % size_w = l.capacity * 2 :=
      Nat.mod_eq_of_lt hc2w
    have hval : grow_loop_wrap (l.length + k) (l.length + k)
        (l.capacity * 2) =
        some (grow_loop (l.length + k) (l.capacity * 2)) := by
      rw [grow_loop_wrap_eq_fuel (l.length + k) (l.length + k)
        (l.capacity * 2) hd]
      exact grow_loop_fuel_eq_grow_loop (l.length + k) (l.length + k)
        (l.capacity * 2) (by omega) (by omega)
    obtain ⟨hge, ⟨j0, hform⟩, hmin⟩ :=
      grow_loop_spec (l.length + k) (l.length + k) (l.capacity * 2)
        (by omega) (by omega)
    refine ⟨l.length + k,
      ({ l with capacity := grow_loop (l.length + k) (l.capacity * 2) },
       true), ?_, by trivial, j0 + 1, ?_, ?_, ?_⟩
    · simp [list_ensure_capacity_wrap, hdr, hmod, h, hval]
    · show grow_loop (l.length + k) (l.capacity * 2) =
        l.capacity * 2 ^ (j0 + 1)
      rw [hform]
      ring
    · have he : l.capacity * 2 ^ (j0 + 1) = l.capacity * 2 * 2 ^ j0 := by
        ring
      rw [he, ← hform]
      exact hge
    · intro m hm
      cases m with
      | zero => simp at hm; omega
      | succ m2 =>
        have he : l.capacity * 2 ^ (m2 + 1) = l.capacity * 2 * 2 ^ m2 := by
          ring
        have he2 : l.capacity * 2 ^ (j0 + 1) = l.capacity * 2 * 2 ^ j0 := by
          ring
        rw [he, he2, ← hform]
        exact hmin m2 (by rw [he] at hm; exact hm)

/-- Witness for the amended C3 at a concrete input: capacity 4, length 2,
demand 7 (well below the wrap bound). -/
theorem ensure_capacity_doubling_wrap_witness :
    1 ≤ demoList4.capacity ∧ demoList4.length + 7 ≤ 2 ^ 63 ∧
    ((demoList4.length + 7 ≤ demoList4.capacity →
        ∀ fuel, list_ensure_capacity_wrap fuel 7 demoList4 =
          some (demoList4, false)) ∧
     (demoList4.capacity < demoList4.length + 7 →
        ∃ fuel out, list_ensure_capacity_wrap fuel 7 demoList4 =
            some out ∧
          out.2 = true ∧
          ∃ j, out.1.capacity = demoList4.capacity * 2 ^ j ∧
            demoList4.length + 7 ≤ demoList4.capacity * 2 ^ j ∧
            ∀ m, demoList4.length + 7 ≤ demoList4.capacity * 2 ^ m →
              demoList4.capacity * 2 ^ j ≤ demoList4.capacity * 2 ^ m)) :=
  ⟨by decide, by decide,
   ensure_capacity_doubling_wrap 7 demoList4 (by decide) (by decide)⟩

/-- Claim C5: swap-remove.  Removing the last live element only
decrements length and changes no stored value; removing a non-last
element copies the former last element over the removed slot and
decrements length; removing the sole element resets length to 0 with no
copy. -/
theorem remove_at_swap_semantics {α : Type} (l : DynList α) (i : Nat)
    (h1 : 1 ≤ l.length) (h2 : i < l.length) :
    (i = l.length - 1 →
      (list_remove_at i l).length = l.length - 1 ∧
      (list_remove_at i l).data = l.data ∧
      (list_remove_at i l).capacity = l.capacity) ∧
    (i ≠ l.length - 1 →
      (list_remove_at i l).length = l.length - 1 ∧
      (list_remove_at i l).data i = l.data (l.length - 1) ∧
      (∀ j, j ≠ i → (list_remove_at i l).data j = l.data j) ∧
      (list_remove_at i l).capacity = l.capacity) ∧
    (l.length = 1 → i = 0 ∧ (list_remove_at i l).length = 0 ∧
      (list_remove_at i l).data = l.data) := by
  refine ⟨?_, ?_, ?_⟩
  · intro he
    unfold list_remove_at
    simp [he]
  · intro hne
    have hgt : l.length > 1 := by omega
    unfold list_remove_at
    simp only [hne, if_neg, not_false_iff, hgt, if_pos]
    refine ⟨by trivial, by simp [writeSlot], ?_, by trivial⟩
    intro j hj
    simp [writeSlot, hj]
  · intro hone
    have hi0 : i = 0 := by omega
    have he : i = l.length - 1 := by omega
    unfold list_remove_at
    simp [he, hone, hi0]

/-- Witness for C5 at a concrete input: removing index 0 of a length-2
list. -/
theorem remove_at_swap_semantics_witness :
    1 ≤ demoList4.length ∧ 0 < demoList4.length ∧
    ((0 = demoList4.length - 1 →
        (list_remove_at 0 demoList4).length = demoList4.length - 1 ∧
        (list_remove_at 0 demoList4).data = demoList4.data ∧
        (list_remove_at 0 demoList4).capacity = demoList4.capacity) ∧
     (0 ≠ demoList4.length - 1 →
        (list_remove_at 0 demoList4).length = demoList4.length - 1 ∧
        (list_remove_at 0 demoList4).data 0 =
          demoList4.data (demoList4.length - 1) ∧
        (∀ j, j ≠ 0 → (list_remove_at 0 demoList4).data j =
          demoList4.data j) ∧
        (list_remove_at 0 demoList4).capacity = demoList4.capacity) ∧
     (demoList4.length = 1 → 0 = 0 ∧
        (list_remove_at 0 demoList4).length = 0 ∧
        (list_remove_at 0 demoList4).data = demoList4.data)) :=
  ⟨by decide, by decide,
   remove_at_swap_semantics demoList4 0 (by decide) (by decide)⟩

/-- Claim C6: the intended pop-back decrements length by exactly one and
changes nothing else.  (`list_pop_back` as written does not compile: it
names the undefined `array_header`; `list_pop_back` here models the
evident intent of its body.) -/
theorem pop_back_decrements {α : Type} (l : DynList α)
    (h : 1 ≤ l.length) :
    (list_pop_back l).length + 1 = l.length ∧
    (list_pop_back l).capacity = l.capacity ∧
    (list_pop_back l).allocatorRef = l.allocatorRef ∧
    (list_pop_back l).data = l.data := by
  refine ⟨?_, rfl, rfl, rfl⟩
  show l.length - 1 + 1 = l.length
  omega

/-- Witness for C6 at a concrete input: a one-element list. -/
theorem pop_back_decrements_witness :
    1 ≤ demoFull.length ∧
    ((list_pop_back demoFull).length + 1 = demoFull.length ∧
     (list_pop_back demoFull).capacity = demoFull.capacity ∧
     (list_pop_back demoFull).allocatorRef = demoFull.allocatorRef ∧
     (list_pop_back demoFull).data = demoFull.data) :=
  ⟨by decide, pop_back_decrements demoFull (by decide)⟩

/-- Claim C7, counterexample: a capacity of at least 1 does not guarantee
termination for every additional count.  On a fresh capacity-16 list with
count `2 ^ 63 + 1`, the `size_t` doubling runs through 32, 64, …,
`2 ^ 63`, then wraps to 0 and stays below the demand forever: no fuel
makes the loop — or the whole `list_ensure_capacity` call — return. -/
theorem ensure_capacity_wrap_divergence :
    1 ≤ demoFresh16.capacity ∧
    demoFresh16.capacity < demoFresh16.length + (2 ^ 63 + 1) ∧
    (¬ ∃ fuel r, grow_loop_wrap fuel
        ((demoFresh16.length + (2 ^ 63 + 1)) % size_w)
        (demoFresh16.capacity * 2 % size_w) = some r) ∧
    ∀ fuel,
      list_ensure_capacity_wrap fuel (2 ^ 63 + 1) demoFresh16 = none := by
  have hdes : (demoFresh16.length + (2 ^ 63 + 1)) % size_w = 2 ^ 63 + 1 := by
    decide
  have hnc : demoFresh16.capacity * 2 % size_w = 32 := by decide
  have hcond : demoFresh16.capacity < 2 ^ 63 + 1 := by decide
  refine ⟨by decide, by decide, ?_, ?_⟩
  · rintro ⟨fuel, r, hr⟩
    rw [hdes, hnc,
      grow_loop_wrap_pow_stuck fuel 32 (Or.inr ⟨5, by omega, by norm_num⟩)]
      at hr
    exact Option.noConfusion hr
  · intro fuel
    have hstuck :=
      grow_loop_wrap_pow_stuck fuel 32 (Or.inr ⟨5, by omega, by norm_num⟩)
    unfold list_ensure_capacity_wrap
    simp only [hdes, hnc]
    rw [hstuck, if_pos hcond]

/-- Claim C7 (amended): with capacity at least 1 and a demand small
enough that the `size_t` doubling cannot wrap (`length + count ≤ 2 ^ 63`),
the doubling loop of `list_ensure_capacity` exits within finite fuel
whenever it is entered and the whole operation returns; with entry
capacity 0 the loop never exits, whatever the fuel. -/
theorem ensure_capacity_wrap_terminates {α : Type} (l : DynList α)
    (k : Nat) (hc : 1 ≤ l.capacity) (hd : l.length + k ≤ 2 ^ 63) :
    (l.capacity < l.length + k →
      ∃ fuel r, grow_loop_wrap fuel ((l.length + k) % size_w)
        (l.capacity * 2 % size_w) = some r) ∧
    (∃ fuel out, list_ensure_capacity_wrap fuel k l = some out) ∧
    ∀ fuel d, 1 ≤ d → grow_loop_wrap fuel d 0 = none := by
  have hw : l.length + k < size_w := by
    have hx : (2 : Nat) ^ 63 < size_w := by norm_num [size_w]
    omega
  have hdr : (l.length + k) % size_w = l.length + k := Nat.mod_eq_of_lt hw
  have hgrown : l.capacity < l.length + k →
      l.capacity * 2 % size_w = l.capacity * 2 ∧
      grow_loop_wrap (l.length + k) (l.length + k) (l.capacity * 2) =
        some (grow_loop (l.length + k) (l.capacity * 2)) := by
    intro h
    have hc63 : l.capacity < 2 ^ 63 := lt_of_lt_of_le h hd
    have hc2w : l.capacity * 2 < size_w := by
      have h2 : l.capacity * 2 < 2 ^ 63 * 2 :=
        mul_lt_mul_of_pos_right hc63 (by norm_num)
      have he : (2 : Nat) ^ 63 * 2 = size_w := by norm_num [size_w]
      rw [he] at h2
      exact h2
    refine ⟨Nat.mod_eq_of_lt hc2w, ?_⟩
    rw [grow_loop_wrap_eq_fuel (l.length + k) (l.length + k)
      (l.capacity * 2) hd]
    exact grow_loop_fuel_eq_grow_loop (l.length + k) (l.length + k)
      (l.capacity * 2) (by omega) (by omega)
  refine ⟨?_, ?_, fun fuel d hd1 => grow_loop_wrap_zero_none fuel d hd1⟩
  · intro h
    obtain ⟨hmod, hval⟩ := hgrown h
    rw [hdr, hmod]
    exact ⟨l.length + k, grow_loop (l.length + k) (l.capacity * 2), hval⟩
  · by_cases h : l.capacity < l.length + k
    · obtain ⟨hmod, hval⟩ := hgrown h
      refine ⟨l.length + k,
        ({ l with capacity := grow_loop (l.length + k) (l.capacity * 2) },
         true), ?_⟩
      simp [list_ensure_capacity_wrap, hdr, hmod, h, hval]
    · refine ⟨0, (l, false), ?_⟩
      have hno : ¬ l.capacity < (l.length + k) % size_w := by
        rw [hdr]
        exact h
      simp [list_ensure_capacity_wrap, hno]

/-- Witness for the amended C7 at a concrete input: a full one-slot list
growing by three. -/
theorem ensure_capacity_wrap_terminates_witness :
    1 ≤ demoFull.capacity ∧ demoFull.length + 3 ≤ 2 ^ 63 ∧
    ((demoFull.capacity < demoFull.length + 3 →
        ∃ fuel r, grow_loop_wrap fuel ((demoFull.length + 3) % size_w)
          (demoFull.capacity * 2 % size_w) = some r) ∧
     (∃ fuel out, list_ensure_capacity_wrap fuel 3 demoFull = some out) ∧
     ∀ fuel d, 1 ≤ d → grow_loop_wrap fuel d 0 = none) :=
  ⟨by decide, by decide,
   ensure_capacity_wrap_terminates demoFull 3 (by decide) (by decide)⟩

/-- Claim C10: `list_ensure_capacity` never modifies the length and never
modifies any stored element value, whether or not it reallocates. -/
theorem ensure_capacity_preserves_elements {α : Type} (k : Nat)
    (l : DynList α) :
    (list_ensure_capacity k l).1.length = l.length ∧
    ∀ i, (list_ensure_capacity k l).1.data i = l.data i := by
  obtain ⟨h1, h2, _⟩ := list_ensure_capacity_frame k l
  exact ⟨h1, fun i => by rw [h2]⟩

/-- Claim C4: starting from an empty list (with a positive starting
capacity, as the spec requires), appending any sequence of N values
leaves length N, capacity at least N, and slot i holding the i-th
appended value; each single append writes its value into slot `length`,
increments the length, and returns the slot just written. -/
theorem append_sequence_correct {α : Type} (l0 : DynList α) (vs : List α)
    (h0 : l0.length = 0) (hc : 1 ≤ l0.capacity) :
    (appendAll l0 vs).length = vs.length ∧
    vs.length ≤ (appendAll l0 vs).capacity ∧
    (∀ i (h : i < vs.length),
      (appendAll l0 vs).data i = vs.get ⟨i, h⟩) ∧
    ∀ (l : DynList α) (v : α), 1 ≤ l.capacity →
      (list_append v l).list.length = l.length + 1 ∧
      (list_append v l).list.data l.length = v ∧
      (list_append v l).slot = l.length := by
  obtain ⟨b1, _, b3, _, b5⟩ := appendAll_spec vs l0 hc (by omega)
  refine ⟨?_, ?_, ?_, ?_⟩
  · rw [b1, h0]
    omega
  · have h3 := b3
    rw [b1, h0] at h3
    omega
  · intro i h
    have hb := b5 i h
    rwa [h0, Nat.zero_add] at hb
  · intro l v hcl
    obtain ⟨c1, c2, _, c4, _, _, _⟩ := list_append_spec v l hcl
    exact ⟨c1, c2, c4⟩

/-- Witness for C4 at a concrete input: three appends into an empty
capacity-2 list (one growth is needed along the way). -/
theorem append_sequence_correct_witness :
    demoEmpty.length = 0 ∧ 1 ≤ demoEmpty.capacity ∧
    ((appendAll demoEmpty [3, 1, 2]).length = [3, 1, 2].length ∧
     [3, 1, 2].length ≤ (appendAll demoEmpty [3, 1, 2]).capacity ∧
     (∀ i (h : i < [3, 1, 2].length),
        (appendAll demoEmpty [3, 1, 2]).data i = [3, 1, 2].get ⟨i, h⟩) ∧
     ∀ (l : DynList Nat) (v : Nat), 1 ≤ l.capacity →
       (list_append v l).list.length = l.length + 1 ∧
       (list_append v l).list.data l.length = v ∧
       (list_append v l).slot = l.length) :=
  ⟨rfl, by decide,
   append_sequence_correct demoEmpty [3, 1, 2] rfl (by decide)⟩

/-- Claim C8: `list_clear` only zeroes the length — capacity, buffer and
allocator are retained — and appends that fit in the retained capacity
perform no reallocation. -/
theorem clear_retains_buffer_no_realloc {α : Type} (l : DynList α)
    (vs : List α) (hv : vs.length ≤ l.capacity) :
    (list_clear l).length = 0 ∧
    (list_clear l).capacity = l.capacity ∧
    (list_clear l).allocatorRef = l.allocatorRef ∧
    (list_clear l).data = l.data ∧
    appendReallocCount (list_clear l) vs = 0 := by
  refine ⟨rfl, rfl, rfl, rfl, ?_⟩
  refine appendReallocCount_eq_zero vs (list_clear l) ?_
  show (0 : Nat) + vs.length ≤ l.capacity
  omega

/-- Witness for C8 at a concrete input: clearing a length-2 capacity-4
list and appending four values. -/
theorem clear_retains_buffer_no_realloc_witness :
    [1, 2, 3, 4].length ≤ demoList4.capacity ∧
    ((list_clear demoList4).length = 0 ∧
     (list_clear demoList4).capacity = demoList4.capacity ∧
     (list_clear demoList4).allocatorRef = demoList4.allocatorRef ∧
     (list_clear demoList4).data = demoList4.data ∧
     appendReallocCount (list_clear demoList4) [1, 2, 3, 4] = 0) :=
  ⟨by decide,
   clear_retains_buffer_no_realloc demoList4 [1, 2, 3, 4] (by decide)⟩

/-- Claim C9: `0 ≤ length ≤ capacity` holds after construction and is
preserved by append and resize (on a list with positive capacity, the
spec's seeding requirement), by clear, by remove-at under its
precondition, and by pop-back on a non-empty list. -/
theorem length_le_capacity_invariant {α : Type} :
    (∀ (stride c aRef : Nat) (mem : Nat → α) (l : DynList α),
      create_list stride c aRef (some mem) = some l → Inv l) ∧
    (∀ (l : DynList α) (v : α), Inv l → 1 ≤ l.capacity →
      Inv (list_append v l).list) ∧
    (∀ (l : DynList α) (k : Nat), Inv l → 1 ≤ l.capacity →
      Inv (list_resize k l).1) ∧
    (∀ l : DynList α, Inv l → Inv (list_clear l)) ∧
    (∀ (l : DynList α) (i : Nat), Inv l → 1 ≤ l.length → i < l.length →
      Inv (list_remove_at i l)) ∧
    (∀ l : DynList α, Inv l → 1 ≤ l.length → Inv (list_pop_back l)) := by
  refine ⟨?_, ?_, ?_, ?_, ?_, ?_⟩
  · intro stride c aRef mem l hl
    unfold create_list at hl
    injection hl with h
    rw [← h]
    exact Nat.zero_le c
  · intro l v _ hc
    obtain ⟨a1, _, _, _, a5, _, _⟩ := list_append_spec v l hc
    show (list_append v l).list.length ≤ (list_append v l).list.capacity
    rw [a1]
    exact a5
  · intro l k _ hc
    obtain ⟨e1, _, _, e4, _⟩ := list_ensure_capacity_spec k l hc
    show (list_ensure_capacity k l).1.length + k ≤
      (list_ensure_capacity k l).1.capacity
    rw [e1]
    exact e4
  · intro l _
    exact Nat.zero_le _
  · intro l i hInv h1 h2
    unfold Inv at hInv ⊢
    unfold list_remove_at
    by_cases he : i = l.length - 1
    · simp only [he, if_pos]
      omega
    · by_cases hg : l.length > 1
      · simp only [he, if_neg, not_false_iff, hg, if_pos]
        show l.length - 1 ≤ l.capacity
        omega
      · simp only [he, if_neg, not_false_iff, hg]
        exact hInv
  · intro l hInv h1
    unfold Inv at hInv ⊢
    show l.length - 1 ≤ l.capacity
    omega

/-- Witness for C9 at concrete inputs: construction, append, resize,
clear, remove and pop on small concrete lists. -/
theorem length_le_capacity_invariant_witness :
    (create_list 4 3 0 (some demoData) =
      some { capacity := 3, length := 0, allocatorRef := 0,
             data := demoData }) ∧
    Inv demoFull ∧ 1 ≤ demoFull.capacity ∧
    Inv { capacity := 3, length := 0, allocatorRef := 0,
          data := demoData } ∧
    Inv (list_append 5 demoFull).list ∧
    Inv (list_resize 2 demoFull).1 ∧
    Inv (list_clear demoFull) ∧
    1 ≤ demoFull.length ∧ 0 < demoFull.length ∧
    Inv (list_remove_at 0 demoFull) ∧
    Inv (list_pop_back demoFull) := by
  have h1 : Inv demoFull := Nat.le_refl 1
  have h2 : 1 ≤ demoFull.capacity := Nat.le_refl 1
  have h3 : 1 ≤ demoFull.length := Nat.le_refl 1
  refine ⟨rfl, h1, h2, ?_, ?_, ?_, ?_, h3, h3, ?_, ?_⟩
  · exact Nat.zero_le 3
  · exact (length_le_capacity_invariant (α := Nat)).2.1 demoFull 5 h1 h2
  · exact (length_le_capacity_invariant (α := Nat)).2.2.1 demoFull 2 h1 h2
  · exact (length_le_capacity_invariant (α := Nat)).2.2.2.1 demoFull h1
  · exact (length_le_capacity_invariant (α := Nat)).2.2.2.2.1 demoFull 0 h1
      h3 h3
  · exact (length_le_capacity_invariant (α := Nat)).2.2.2.2.2 demoFull h1 h3

end DynamicList
